import Mathlib

/-!
Verification of `posh-to-dash.py`, a crawl-to-archive pipeline that turns the
PowerShell online documentation into a Dash docset.  The Python source is
shallowly embedded below: each Python function relevant to a verified property
is translated into an executable Lean definition, and the properties are proved
as theorems about those definitions.
-/

namespace PoshToDash

/-! ## Configuration constants (class `Configuration` in `posh-to-dash.py`) -/

namespace Configuration

/-- `Configuration.posh_version` static constant. -/
def posh_version : String := "6"

/-- `Configuration.docset_name` static constant. -/
def docset_name : String := "Powershell"

/-- `Configuration.domain` static constant. -/
def domain : String := "docs.microsoft.com"

/-- `Configuration.default_theme_uri` static constant. -/
def default_theme_uri : String := "_themes/docs.theme/master/en-us/_themes"

end Configuration

/-! ## Small filesystem/string helpers mirroring the Python standard library -/

/-- `os.path.join a b` (POSIX flavour): if `b` is absolute it wins, otherwise
`a` and `b` are joined with a single `/` separator. -/
def pjoin (a b : String) : String :=
  if b.data.head? = some '/' then b
  else if a.data = [] then b
  else if a.data.getLast? = some '/' then a ++ b
  else a ++ "/" ++ b

/-- Split a character list on `/` into path components
(`"a/b".split('/') = ["a", "b"]`, with empty components preserved). -/
def splitSlash : List Char → List String
  | [] => [""]
  | c :: cs =>
    if c = '/' then "" :: splitSlash cs
    else
      match splitSlash cs with
      | [] => [String.mk [c]]
      | s :: rest => String.mk (c :: s.data) :: rest

/-- `os.path.basename`: everything after the last `/`. -/
def basename (p : String) : String :=
  String.mk ((p.data.reverse.takeWhile (fun c => c != '/')).reverse)

/-- Drop the common leading components of two component lists
(helper for `os.path.relpath`). -/
def dropCommon : List String → List String → List String × List String
  | a :: as, b :: bs => if a = b then dropCommon as bs else (a :: as, b :: bs)
  | as, bs => (as, bs)

/-- `os.path.relpath path start` on already-normalized POSIX paths: strip the
common component prefix, go up with `..` for every remaining component of
`start`, then down into the remaining components of `path`. -/
def relpath (path start : String) : String :=
  let pr := dropCommon (splitSlash path.data) (splitSlash start.data)
  let parts := List.replicate pr.2.length ".." ++ pr.1
  if parts = [] then "." else String.intercalate "/" parts

/-- Python `str.lower()` (ASCII fragment). -/
def pyLower (s : String) : String := String.mk (s.data.map Char.toLower)

/-- Python `str.strip()`: remove leading and trailing whitespace. -/
def pyStrip (s : String) : String :=
  String.mk (((s.data.dropWhile Char.isWhitespace).reverse.dropWhile
    Char.isWhitespace).reverse)

/-- Python `str.lstrip('/')`: remove all leading slashes. -/
def pyLstripSlash (s : String) : String :=
  String.mk (s.data.dropWhile (fun c => c = '/'))

/-! ## `PoshWebDriver.get_url_page` (lines 38–64)

The selenium driver is modelled as an environment script assigning to each
attempt number the outcome of `driver.get(url); driver.page_source` for that
attempt: either the page source string, or one of the exception classes the
Python code distinguishes (`ConnectionResetError` / `urllib.error.URLError`
are caught on the first attempt; anything else propagates). -/

/-- Outcome of one `driver.get` attempt. -/
inductive AttemptResult where
  | ok (html : String)
  | connReset
  | urlError
  | otherError
deriving DecidableEq

/-- Observable effects of one `get_url_page` call: number of `driver.get`
attempts issued, number of times the driver was quit and re-created, and
number of `time.sleep` pauses. -/
structure FetchLog where
  attempts : Nat
  driverRestarts : Nat
  sleeps : Nat
deriving DecidableEq

/-- The unguarded second attempt at the end of `get_url_page`: its
`driver.get` is outside any `try`, so any exception propagates (modelled as
`none`); a successful render returns the page source, even if empty. -/
def secondAttempt (log : FetchLog) : AttemptResult → FetchLog × Option String
  | .ok h => ({ log with attempts := log.attempts + 1 }, some h)
  | _ => ({ log with attempts := log.attempts + 1 }, none)

/-- `PoshWebDriver.get_url_page`, translated from `posh-to-dash.py`:
first attempt under `try`; `ConnectionResetError`/`URLError` are caught and
followed by `driver.quit()`, `time.sleep(2)`, a fresh driver and
`index_html = None`; any other exception propagates.  Afterwards, a falsy
`index_html` (caught error, or an empty page source) triggers the single
unguarded second attempt. -/
def get_url_page (script : Nat → AttemptResult) : FetchLog × Option String :=
  match script 0 with
  | .ok h =>
    if h = "" then secondAttempt ⟨1, 0, 0⟩ (script 1)
    else (⟨1, 0, 0⟩, some h)
  | .connReset => secondAttempt ⟨1, 1, 1⟩ (script 1)
  | .urlError => secondAttempt ⟨1, 1, 1⟩ (script 1)
  | .otherError => (⟨1, 0, 0⟩, none)

/-! ## `rewrite_soup` navigation-link fixing (lines 229–253)

The regex `(\w+-\w+)\?view=powershell-` is embedded as an executable
backtracking matcher specialised to this pattern.  For this pattern the
greedy `\w+` pieces are forced: the first run must end right before the `-`
(a word character cannot match `-`) and the second right before the `?`,
so the match attempted at each start position is unique, and `re.findall`'s
first result is the match at the leftmost feasible start position. -/

/-- Python `\w` (ASCII fragment): letters, digits or underscore. -/
def isWordChar (c : Char) : Bool := c.isAlphanum || c = '_'

/-- Split a character list into its maximal leading run of word characters
and the rest (the forced extent of a greedy `\w+`). -/
def takeWordRun : List Char → List Char × List Char
  | [] => ([], [])
  | c :: cs =>
    if isWordChar c then ((c :: (takeWordRun cs).1), (takeWordRun cs).2)
    else ([], c :: cs)

/-- The literal tail of the link pattern. -/
def qview : List Char := "?view=powershell-".data

/-- Attempt the pattern `(\w+-\w+)\?view=powershell-` at the very start of
`s`, returning the captured group on success.  Both greedy `\w+` pieces are
the maximal word runs (shorter extents would be followed by a word character
rather than the required `-` or `?`, so backtracking cannot help). -/
def matchVersionToken (s : List Char) : Option (List Char) :=
  if (takeWordRun s).1 = [] then none
  else
    match (takeWordRun s).2 with
    | [] => none
    | c :: rest2 =>
      if c = '-' then
        if (takeWordRun rest2).1 = [] then none
        else if qview.isPrefixOf (takeWordRun rest2).2 then
          some ((takeWordRun s).1 ++ '-' :: (takeWordRun rest2).1)
        else none
      else none

/-- `re.findall(r"(\w+-\w+)\?view=powershell-", s)[0]`: the captured group of
the leftmost match, if any. -/
def findVersionToken : List Char → Option (List Char)
  | [] => none
  | c :: cs =>
    match matchVersionToken (c :: cs) with
    | some t => some t
    | none => findVersionToken cs

/-- Spec-side predicate, following the spec's words: the string contains a
`word-word` style identifier token immediately before the version query
string. -/
def HasVersionToken (s : List Char) : Prop :=
  ∃ pre a b rest, s = pre ++ (a ++ '-' :: (b ++ (qview ++ rest))) ∧
    a ≠ [] ∧ b ≠ [] ∧ (∀ c ∈ a, isWordChar c) ∧ (∀ c ∈ b, isWordChar c)

/-- The per-anchor link rewrite of `rewrite_soup` (lines 233–253): `version`
is `configuration.powershell_version`, `text` the anchor's visible text and
`href` its `href` attribute; returns the final `href`. -/
def fix_nav_href (version text href : String) : String :=
  if href = "./?view=powershell-" ++ version then
    "./" ++ text ++ ".html"
  else
    match findVersionToken href.data with
    | none => href
    | some tok => String.mk tok ++ ".html"

/-! ## `rewrite_soup` stylesheet extraction (lines 284–304)

Only the construction of the `ThemeResourceRecord` source URL from a
stylesheet link's `href` is needed here; the guard and the URL are translated
verbatim: `uri_path = link['href'].strip()` is only `lstrip`-ped of slashes
for the *prefix test*, while the URL concatenates the un-lstripped value. -/

/-- Lines 285–291 of `rewrite_soup` for one `<link rel="stylesheet">`:
the `ThemeResourceRecord` source URL, or `none` when the href does not match
the theme prefix and the link is left alone. -/
def theme_css_url (href : String) : Option String :=
  let uri_path := pyStrip href
  if Configuration.default_theme_uri.data.isPrefixOf (pyLstripSlash uri_path).data then
    some ("https://" ++ Configuration.domain ++ "/" ++ uri_path)
  else none

/-! ## Search-index construction: `create_sqlite_database` (lines 441–486) -/

/-- One row of the `searchIndex` table (the `id` primary key is implicit). -/
structure Row where
  name : String
  type : String
  path : String
deriving DecidableEq

/-- `insert_into_sqlite_db` (lines 444–459): look up an existing row by path
and by name independently; insert only when both lookups found nothing.
The database table is modelled as its list of rows in insertion order. -/
def insert_into_sqlite_db (rows : List Row) (name type path : String) : List Row :=
  if rows.find? (fun r => r.path == path) = none ∧
      rows.find? (fun r => r.name == name) = none then
    rows ++ [⟨name, type, path⟩]
  else rows

/-- An entry of the in-memory content TOC: one cmdlet's name and relative
document path. -/
structure CmdletRec where
  name : String
  path : String
deriving DecidableEq

/-- An entry of the in-memory content TOC: one module, its index page path
and its cmdlets. -/
structure ModuleRec where
  name : String
  index : String
  cmdlets : List CmdletRec
deriving DecidableEq

/-- Body of the `for module_name, module in content_toc.items()` loop of
`create_sqlite_database` (lines 471–481): insert the module row, then every
cmdlet row except those whose name equals the module name. -/
def insert_module_rows (rows : List Row) (m : ModuleRec) : List Row :=
  let rows1 := insert_into_sqlite_db rows m.name "Module" m.index
  m.cmdlets.foldl
    (fun acc c =>
      if c.name = m.name then acc
      else insert_into_sqlite_db acc c.name "Cmdlet" c.path)
    rows1

/-- `create_sqlite_database` (lines 441–486): any pre-existing index file is
deleted (`os.remove`) before the fresh database is created, so the rows
produced never depend on the `existing` file contents.  The ordered `dict`
`content_toc` is modelled as a list of `ModuleRec`. -/
def create_sqlite_database (existing : Option (List Row)) (content_toc : List ModuleRec) :
    List Row :=
  match existing with
  | some _ => content_toc.foldl insert_module_rows []
  | none => content_toc.foldl insert_module_rows []

/-- The sequence of insertion attempts `create_sqlite_database` presents to
`insert_into_sqlite_db` on behalf of one module: the module row followed by
the rows of cmdlets not named like the module. -/
def module_insert_attempts (m : ModuleRec) : List Row :=
  ⟨m.name, "Module", m.index⟩ ::
    (m.cmdlets.filter (fun c => c.name != m.name)).map
      (fun c => ⟨c.name, "Cmdlet", c.path⟩)

/-! ## `download_module_contents` (lines 166–200) -/

/-- One child entry of a module's TOC subtree (`toc_title` / `href`). -/
structure TocEntry where
  toc_title : String
  href : String
deriving DecidableEq

/-- Reserved TOC section labels skipped by the crawler (line 180). -/
def special_toc : List String := ["about", "functions", "providers", "provider"]

/-- Result of `download_module_contents`: the returned `module_infos`
dictionary, plus the download side effects — the module index page download
and, for each downloaded cmdlet page, the `(toc_title, href, filepath)` of
the `download_page_contents` call it issued. -/
structure ModuleDownload where
  infos : ModuleRec
  index_download : String × String
  cmdlet_downloads : List (String × String × String)
deriving DecidableEq

/-- `download_module_contents` (lines 166–200): download the module index
page, then walk the cmdlet entries, skipping reserved labels
(case-insensitive) and recording each remaining cmdlet's name and path
relative to `root_dir`. -/
def download_module_contents (module_name module_uri module_dir : String)
    (cmdlets : List TocEntry) (root_dir : String) : ModuleDownload :=
  let module_filepath := pjoin module_dir (module_name ++ ".html")
  let res := cmdlets.foldl
    (fun (acc : List CmdletRec × List (String × String × String)) c =>
      if (pyLower c.toc_title) ∈ special_toc then acc
      else
        let fp := pjoin module_dir (c.toc_title ++ ".html")
        (acc.1 ++ [⟨c.toc_title, relpath fp root_dir⟩],
         acc.2 ++ [(c.toc_title, c.href, fp)]))
    ([], [])
  { infos := ⟨module_name, relpath module_filepath root_dir, res.1⟩,
    index_download := (module_uri, module_filepath),
    cmdlet_downloads := res.2 }

/-! ## `rewrite_index_soup` script removal (lines 359–363)

The two removal loops are translated onto a document model keeping the
`<script>` elements of `head` and `body`; elements carry an identity so that
`Tag.extract` (removal of that very node from the tree, a no-op when the node
was already detached) is faithful.  The Python body loop reads
`head_script.extract()` — the loop variable of the *previous* loop — which is
a `NameError` when the head had no script, and a stale already-extracted node
otherwise. -/

/-- A `<script>` element: identity plus whether its `async`/`defer`
attributes match the BeautifulSoup filter `{"async": "", "defer": ""}`. -/
structure ScriptTag where
  id : Nat
  async : Bool
  defer : Bool
deriving DecidableEq

/-- The `<script>` elements of a parsed index page, by section. -/
structure IndexDoc where
  headScripts : List ScriptTag
  bodyScripts : List ScriptTag
deriving DecidableEq

/-- `Tag.extract`: remove that node (by identity) from wherever it sits in
the tree; extracting an already-detached node changes nothing. -/
def extractTag (d : IndexDoc) (s : ScriptTag) : IndexDoc :=
  { headScripts := d.headScripts.eraseP (fun t => t.id == s.id),
    bodyScripts := d.bodyScripts.eraseP (fun t => t.id == s.id) }

/-- Lines 359–363 of `rewrite_index_soup`: extract every head script; then,
for every body script matching `{"async": "", "defer": ""}`, the code calls
`head_script.extract()` — the stale variable from the first loop — raising
`NameError` when the head had no script at all. -/
def remove_index_scripts (d : IndexDoc) : Except String IndexDoc :=
  let headList := d.headScripts
  let d1 := headList.foldl (fun acc s => extractTag acc s) d
  let asyncList := d1.bodyScripts.filter (fun s => s.async && s.defer)
  match headList.getLast? with
  | some head_script =>
    Except.ok (asyncList.foldl (fun acc _ => extractTag acc head_script) d1)
  | none =>
    if asyncList.isEmpty then Except.ok d1
    else Except.error "NameError: name head_script is not defined"

/-! ## `make_docset` (lines 139–153) and the packaging step of `main`
(lines 538–579) -/

/-- The archive produced by `tarfile.open(..., "w:gz")` + `tar.add`:
its current filesystem path, the name of its internal top-level directory
(`arcname`), and whether its contents are gzip-compressed. -/
structure TarArchive where
  path : String
  rootName : String
  gzipped : Bool
deriving DecidableEq

/-- `shutil.move src dst` acting on the tracked archive file. -/
def moveFile (a : TarArchive) (src dst : String) : TarArchive :=
  if a.path = src then { a with path := dst } else a

/-- `make_docset` (lines 139–153): create a gzip-compressed tar at
`<dst>/<filename>.tar` whose internal root is `basename source_dir`, then
move it to `<dst>/<filename>.tar.gz` and finally to
`<dst>/<filename>.docset`.  Returns the final archive and the two moves. -/
def make_docset (source_dir dst_dir filename : String) :
    TarArchive × List (String × String) :=
  let tar_filepath := pjoin dst_dir (filename ++ ".tar")
  let targz_filepath := pjoin dst_dir (filename ++ ".tar.gz")
  let docset_filepath := pjoin dst_dir (filename ++ ".docset")
  let archive0 : TarArchive :=
    { path := tar_filepath, rootName := basename source_dir, gzipped := true }
  let archive1 := moveFile archive0 tar_filepath targz_filepath
  let archive2 := moveFile archive1 targz_filepath docset_filepath
  (archive2, [(tar_filepath, targz_filepath), (targz_filepath, docset_filepath)])

/-- The packaging tail of `main` (lines 542–579): the docset build directory
is `<build>/_4_ready_to_be_packaged/<docset_name>.docset`, the output
directory is `<output>/versions/<version>`, and `make_docset` is called with
`Configuration.docset_name` as the archive file name. -/
def main_package (output_folder powershell_version build_folder : String) :
    TarArchive × List (String × String) :=
  let package_dir := pjoin build_folder "_4_ready_to_be_packaged"
  let docset_dir := pjoin package_dir (Configuration.docset_name ++ ".docset")
  let version_output_dir := pjoin (pjoin output_folder "versions") powershell_version
  make_docset docset_dir version_output_dir Configuration.docset_name

/-! ## General helper lemmas -/

/-- A predicate preserved by every step of a fold is preserved by the fold. -/
theorem foldl_preserve {α β : Type} (P : α → Prop) (f : α → β → α)
    (hf : ∀ a b, P a → P (f a b)) :
    ∀ (l : List β) (a : α), P a → P (l.foldl f a) := by
  intro l
  induction l with
  | nil => intro a h; exact h
  | cons b t ih =>
    intro a h
    exact ih (f a b) (hf a b h)

/-- Variant of `foldl_preserve` where the step hypothesis may use membership
of the folded element in the list. -/
theorem foldl_preserve_mem {α β : Type} (P : α → Prop) (f : α → β → α) :
    ∀ (l : List β), (∀ a b, b ∈ l → P a → P (f a b)) →
      ∀ (a : α), P a → P (l.foldl f a) := by
  intro l
  induction l with
  | nil => intro _ a h; exact h
  | cons b t ih =>
    intro hf a h
    exact ih (fun a' b' hb' => hf a' b' (List.mem_cons_of_mem _ hb'))
      (f a b) (hf a b (List.mem_cons_self _ _) h)

/-! ## Claim theorems -/

/-- **C5**: the page-render fetch tolerates exactly one transient connection
failure: on a first-attempt connection failure it discards the browser
session, pauses, creates a fresh session, and retries exactly once; a failure
of the second attempt propagates as a fatal error, and no third attempt is
ever made (at most two `driver.get` attempts on any environment). -/
theorem get_url_page_retries_exactly_once (script : Nat → AttemptResult) :
    ((script 0 = .connReset ∨ script 0 = .urlError) →
      (get_url_page script).1.driverRestarts = 1 ∧
      (get_url_page script).1.sleeps = 1 ∧
      (get_url_page script).1.attempts = 2 ∧
      (∀ h, script 1 = .ok h → (get_url_page script).2 = some h) ∧
      ((∀ h, script 1 ≠ .ok h) → (get_url_page script).2 = none))
    ∧ (get_url_page script).1.attempts ≤ 2 := by
  constructor
  · intro h0
    rcases h0 with h0 | h0 <;>
    · simp only [get_url_page, h0]
      cases h1 : script 1 <;>
        simp_all [secondAttempt]
  · cases h0 : script 0 with
    | ok h =>
      by_cases hh : h = "" <;>
        cases h1 : script 1 <;>
          simp [get_url_page, h0, hh, h1, secondAttempt]
    | connReset => cases h1 : script 1 <;> simp [get_url_page, h0, h1, secondAttempt]
    | urlError => cases h1 : script 1 <;> simp [get_url_page, h0, h1, secondAttempt]
    | otherError => simp [get_url_page, h0]

/-- **C5 witness**: a connection reset on the first attempt followed by a
successful render is recovered in exactly two attempts, one driver restart
and one pause. -/
theorem get_url_page_retries_exactly_once_holds :
    (get_url_page
      (fun n => if n = 0 then .connReset else .ok "page")).1.attempts = 2
    ∧ (get_url_page
      (fun n => if n = 0 then .connReset else .ok "page")).2 = some "page" := by
  have h := get_url_page_retries_exactly_once
    (fun n => if n = 0 then .connReset else .ok "page")
  exact ⟨(h.1 (Or.inl rfl)).2.2.1, (h.1 (Or.inl rfl)).2.2.2.1 "page" rfl⟩

/-- **C10**: in the page-render fetch, only a connection-reset or URL error
on the first attempt is recovered; any other exception on the first attempt
propagates immediately with no retry and no driver restart, a first attempt
returning non-empty content returns directly with one attempt, and a first
attempt that returns empty page content without raising also triggers the
single second attempt (without a driver restart, since no exception was
caught). -/
theorem get_url_page_first_attempt_cases (script : Nat → AttemptResult) :
    (script 0 = .otherError → get_url_page script = (⟨1, 0, 0⟩, none))
    ∧ (∀ h, script 0 = .ok h → h ≠ "" →
        get_url_page script = (⟨1, 0, 0⟩, some h))
    ∧ (script 0 = .ok "" →
        (get_url_page script).1.attempts = 2 ∧
        (get_url_page script).1.driverRestarts = 0 ∧
        (∀ h2, script 1 = .ok h2 → (get_url_page script).2 = some h2) ∧
        ((∀ h2, script 1 ≠ .ok h2) → (get_url_page script).2 = none)) := by
  refine ⟨?_, ?_, ?_⟩
  · intro h0; simp [get_url_page, h0]
  · intro h h0 hne; simp [get_url_page, h0, hne]
  · intro h0
    simp only [get_url_page, h0, if_pos rfl]
    cases h1 : script 1 <;> simp_all [secondAttempt]

/-- **C10 witness**: a non-connection exception on the first attempt
propagates after a single attempt, and an empty first render is followed by
a second attempt whose result is returned. -/
theorem get_url_page_first_attempt_cases_holds :
    get_url_page (fun _ => .otherError) = (⟨1, 0, 0⟩, none)
    ∧ (get_url_page (fun n => if n = 0 then .ok "" else .ok "late")).2
        = some "late" := by
  constructor
  · exact (get_url_page_first_attempt_cases (fun _ => .otherError)).1 rfl
  · exact ((get_url_page_first_attempt_cases
      (fun n => if n = 0 then .ok "" else .ok "late")).2.2 rfl).2.2.1 "late" rfl

/-- **C7** (code bug): after the start/index-page rewrite pass the head
contains no script elements, but a body script carrying both `async` and
`defer` is *not* removed: the body loop extracts the stale `head_script`
variable instead of `body_async_script`, so the async+defer body script
survives the pass. -/
theorem remove_index_scripts_leaves_async_defer_body_script :
    remove_index_scripts ⟨[⟨0, false, false⟩], [⟨1, true, true⟩]⟩
      = Except.ok ⟨[], [⟨1, true, true⟩]⟩
    ∧ (IndexDoc.bodyScripts ⟨[], [⟨1, true, true⟩]⟩).any
        (fun s => s.async && s.defer) = true := by
  exact ⟨rfl, rfl⟩

/-- **C8**: the Search Indexer is deterministic in the content TOC alone:
whatever index file already exists is deleted and recreated, so two runs on
the same finalized ContentTOC yield exactly the same rows. -/
theorem create_sqlite_database_deterministic (toc : List ModuleRec)
    (e1 e2 : Option (List Row)) :
    create_sqlite_database e1 toc = create_sqlite_database e2 toc := by
  cases e1 <;> cases e2 <;> rfl

/-! ### Lemmas about `insert_into_sqlite_db` and `create_sqlite_database` -/

/-- The pairwise invariant maintained by the index: distinct names and
distinct paths. -/
def RowsUnique (rows : List Row) : Prop :=
  List.Pairwise (fun a b : Row => a.name ≠ b.name ∧ a.path ≠ b.path) rows

theorem insert_preserves_unique (rows : List Row) (n t p : String)
    (h : RowsUnique rows) : RowsUnique (insert_into_sqlite_db rows n t p) := by
  unfold insert_into_sqlite_db RowsUnique
  split
  · rename_i hcond
    obtain ⟨hp, hn⟩ := hcond
    rw [List.pairwise_append]
    refine ⟨h, List.pairwise_singleton _ _, ?_⟩
    intro a ha b hb
    have hb' : b = ⟨n, t, p⟩ := List.mem_singleton.mp hb
    subst hb'
    have h1 := List.find?_eq_none.mp hn a ha
    have h2 := List.find?_eq_none.mp hp a ha
    constructor
    · simpa using h1
    · simpa using h2
  · exact h

theorem insert_module_rows_preserves_unique (rows : List Row) (m : ModuleRec)
    (h : RowsUnique rows) : RowsUnique (insert_module_rows rows m) := by
  unfold insert_module_rows
  apply foldl_preserve RowsUnique _ ?_ m.cmdlets _
    (insert_preserves_unique rows m.name "Module" m.index h)
  intro acc c hacc
  by_cases hc : c.name = m.name
  · simpa [hc] using hacc
  · simpa [hc] using insert_preserves_unique acc c.name "Cmdlet" c.path hacc

theorem create_sqlite_database_unique (existing : Option (List Row))
    (toc : List ModuleRec) : RowsUnique (create_sqlite_database existing toc) := by
  have base : RowsUnique [] := List.Pairwise.nil
  cases existing <;>
    exact foldl_preserve RowsUnique _
      (fun a b h => insert_module_rows_preserves_unique a b h) toc [] base

/-- **C1**: a candidate row is inserted iff no already-inserted row has the
same path and none has the same name (regardless of type); consequently the
finished index has pairwise-distinct names and pairwise-distinct paths, and
in the spec's concrete scenario inserting `("Get-Item","Cmdlet","a.html")`
then `("Get-Item","Cmdlet","b.html")` leaves exactly the first row. -/
theorem insert_into_sqlite_db_spec (rows : List Row) (n t p : String) :
    ((∀ r ∈ rows, r.path ≠ p ∧ r.name ≠ n) →
      insert_into_sqlite_db rows n t p = rows ++ [⟨n, t, p⟩])
    ∧ ((∃ r ∈ rows, r.path = p ∨ r.name = n) →
      insert_into_sqlite_db rows n t p = rows)
    ∧ (∀ (existing : Option (List Row)) (toc : List ModuleRec),
        List.Pairwise (fun a b : Row => a.name ≠ b.name)
          (create_sqlite_database existing toc)
        ∧ List.Pairwise (fun a b : Row => a.path ≠ b.path)
          (create_sqlite_database existing toc))
    ∧ insert_into_sqlite_db
        (insert_into_sqlite_db [] "Get-Item" "Cmdlet" "a.html")
        "Get-Item" "Cmdlet" "b.html"
      = [⟨"Get-Item", "Cmdlet", "a.html"⟩] := by
  refine ⟨?_, ?_, ?_, by decide⟩
  · intro h
    unfold insert_into_sqlite_db
    rw [if_pos]
    constructor
    · exact List.find?_eq_none.mpr (fun r hr => by simpa using (h r hr).1)
    · exact List.find?_eq_none.mpr (fun r hr => by simpa using (h r hr).2)
  · rintro ⟨r, hr, hcase⟩
    unfold insert_into_sqlite_db
    rw [if_neg]
    rintro ⟨hp, hn⟩
    rcases hcase with hc | hc
    · exact absurd (by simpa using hc) (by simpa using List.find?_eq_none.mp hp r hr)
    · exact absurd (by simpa using hc) (by simpa using List.find?_eq_none.mp hn r hr)
  · intro existing toc
    have h := create_sqlite_database_unique existing toc
    exact ⟨h.imp (fun ha => ha.1), h.imp (fun ha => ha.2)⟩

/-- **C1 witness**: the two insertion branches at concrete inputs — a fresh
row is appended, and a row whose name already exists is dropped. -/
theorem insert_into_sqlite_db_spec_holds :
    insert_into_sqlite_db [] "Get-Item" "Cmdlet" "a.html"
      = [⟨"Get-Item", "Cmdlet", "a.html"⟩]
    ∧ insert_into_sqlite_db [⟨"Get-Item", "Cmdlet", "a.html"⟩]
        "Get-Item" "Cmdlet" "b.html"
      = [⟨"Get-Item", "Cmdlet", "a.html"⟩] := by
  constructor
  · have h := (insert_into_sqlite_db_spec [] "Get-Item" "Cmdlet" "a.html").1
      (by intro r hr; simp at hr)
    simpa using h
  · exact (insert_into_sqlite_db_spec [⟨"Get-Item", "Cmdlet", "a.html"⟩]
      "Get-Item" "Cmdlet" "b.html").2.1
      ⟨⟨"Get-Item", "Cmdlet", "a.html"⟩, by simp, Or.inr rfl⟩

/-! ### Lemmas for C6: insertion attempts of `create_sqlite_database` -/

theorem insert_cmdlet_foldl_eq (mname : String) :
    ∀ (cs : List CmdletRec) (acc : List Row),
      cs.foldl
        (fun a c =>
          if c.name = mname then a
          else insert_into_sqlite_db a c.name "Cmdlet" c.path) acc
      = ((cs.filter (fun c => c.name != mname)).map
          (fun c => (⟨c.name, "Cmdlet", c.path⟩ : Row))).foldl
          (fun a r => insert_into_sqlite_db a r.name r.type r.path) acc := by
  intro cs
  induction cs with
  | nil => intro acc; rfl
  | cons c t ih =>
    intro acc
    by_cases hc : c.name = mname
    · simp only [List.foldl_cons, if_pos hc, List.filter_cons,
        bne_eq_false_iff_eq.mpr hc, ite_false]
      exact ih acc
    · simp only [List.foldl_cons, if_neg hc, List.filter_cons,
        bne_iff_ne.mpr hc, ite_true, List.map_cons]
      exact ih (insert_into_sqlite_db acc c.name "Cmdlet" c.path)

theorem insert_module_rows_eq_attempts (rows : List Row) (m : ModuleRec) :
    insert_module_rows rows m
      = (module_insert_attempts m).foldl
          (fun acc r => insert_into_sqlite_db acc r.name r.type r.path) rows := by
  unfold insert_module_rows module_insert_attempts
  rw [List.foldl_cons]
  exact insert_cmdlet_foldl_eq m.name m.cmdlets _

theorem mem_insert_into_sqlite_db (r : Row) (rows : List Row) (n t p : String)
    (h : r ∈ insert_into_sqlite_db rows n t p) : r ∈ rows ∨ r = ⟨n, t, p⟩ := by
  unfold insert_into_sqlite_db at h
  split at h
  · rcases List.mem_append.mp h with h' | h'
    · exact Or.inl h'
    · exact Or.inr (List.mem_singleton.mp h')
  · exact Or.inl h

theorem mem_foldl_attempts :
    ∀ (l : List Row) (acc : List Row) (r : Row),
      r ∈ l.foldl (fun a x => insert_into_sqlite_db a x.name x.type x.path) acc →
        r ∈ acc ∨ r ∈ l := by
  intro l
  induction l with
  | nil => intro acc r h; exact Or.inl h
  | cons x t ih =>
    intro acc r h
    rcases ih _ r h with h' | h'
    · rcases mem_insert_into_sqlite_db r acc x.name x.type x.path h' with h'' | h''
      · exact Or.inl h''
      · exact Or.inr (by simp [h''])
    · exact Or.inr (List.mem_cons_of_mem _ h')

/-- **C6**: a command whose name equals its owning module's name is never an
insertion attempt of the Search Indexer (first conjunct), the per-module loop
is exactly the fold of `insert_into_sqlite_db` over those attempts (second
conjunct), and every row of the finished index arose from some module's
attempt list (third conjunct) — so no row is ever emitted for such a
command, independently of the index contents. -/
theorem create_sqlite_database_skips_module_named_cmdlets :
    (∀ (m : ModuleRec) (p : String),
      (⟨m.name, "Cmdlet", p⟩ : Row) ∉ module_insert_attempts m)
    ∧ (∀ (rows : List Row) (m : ModuleRec),
        insert_module_rows rows m
          = (module_insert_attempts m).foldl
              (fun acc r => insert_into_sqlite_db acc r.name r.type r.path) rows)
    ∧ (∀ (existing : Option (List Row)) (toc : List ModuleRec) (r : Row),
        r ∈ create_sqlite_database existing toc →
          ∃ m, m ∈ toc ∧ r ∈ module_insert_attempts m) := by
  refine ⟨?_, insert_module_rows_eq_attempts, ?_⟩
  · intro m p hmem
    simp only [module_insert_attempts, List.mem_cons, List.mem_map,
      List.mem_filter] at hmem
    rcases hmem with h | ⟨c, ⟨_, hne⟩, heq⟩
    · exact absurd (congrArg Row.type h) (by simp)
    · have : c.name = m.name := congrArg Row.name heq
      exact absurd this (by simpa using hne)
  · intro existing toc r hr
    have main : ∀ rows, (∀ x ∈ rows, ∃ m, m ∈ toc ∧ x ∈ module_insert_attempts m) →
        ∀ x ∈ toc.foldl insert_module_rows rows,
          ∃ m, m ∈ toc ∧ x ∈ module_insert_attempts m := by
      intro rows h0
      refine fun x hx =>
        foldl_preserve_mem
          (fun acc => ∀ y ∈ acc, ∃ m, m ∈ toc ∧ y ∈ module_insert_attempts m)
          insert_module_rows toc ?_ rows h0 x hx
      intro acc m hm hacc y hy
      rw [insert_module_rows_eq_attempts] at hy
      rcases mem_foldl_attempts _ _ y hy with h' | h'
      · exact hacc y h'
      · exact ⟨m, hm, h'⟩
    cases existing <;>
      exact main [] (by intro x hx; simp at hx) r hr

/-- **C6 witness**: for a module `"M"` with a single cmdlet also named
`"M"`, the only row of the fresh index is the module row, and it is indeed
among the module's insertion attempts. -/
theorem create_sqlite_database_skips_module_named_cmdlets_holds :
    (⟨"M", "Module", "i"⟩ : Row)
      ∈ module_insert_attempts ⟨"M", "i", [⟨"M", "p"⟩]⟩ := by
  obtain ⟨m, hm, hr⟩ :=
    (create_sqlite_database_skips_module_named_cmdlets).2.2 none
      [⟨"M", "i", [⟨"M", "p"⟩]⟩] ⟨"M", "Module", "i"⟩ (by decide)
  have hm' : m = ⟨"M", "i", [⟨"M", "p"⟩]⟩ := List.mem_singleton.mp hm
  exact hm' ▸ hr

/-! ### Lemmas for C4: `download_module_contents` -/

theorem dmc_foldl_eq (md rd : String) :
    ∀ (cs : List TocEntry) (acc : List CmdletRec × List (String × String × String)),
      cs.foldl
        (fun (acc : List CmdletRec × List (String × String × String)) c =>
          if (pyLower c.toc_title) ∈ special_toc then acc
          else
            (acc.1 ++ [⟨c.toc_title, relpath (pjoin md (c.toc_title ++ ".html")) rd⟩],
             acc.2 ++ [(c.toc_title, c.href, pjoin md (c.toc_title ++ ".html"))]))
        acc
      = (acc.1 ++ (cs.filter (fun e => decide (pyLower e.toc_title ∉ special_toc))).map
            (fun e => ⟨e.toc_title, relpath (pjoin md (e.toc_title ++ ".html")) rd⟩),
         acc.2 ++ (cs.filter (fun e => decide (pyLower e.toc_title ∉ special_toc))).map
            (fun e => (e.toc_title, e.href, pjoin md (e.toc_title ++ ".html")))) := by
  intro cs
  induction cs with
  | nil => intro acc; simp
  | cons c t ih =>
    intro acc
    by_cases hc : pyLower c.toc_title ∈ special_toc
    · simp only [List.foldl_cons, if_pos hc, List.filter_cons,
        decide_eq_true_eq, hc, not_true_eq_false, decide_False, ite_false]
      exact ih acc
    · simp only [List.foldl_cons, if_neg hc, List.filter_cons,
        decide_eq_true_eq, hc, not_false_eq_true, decide_True, ite_true,
        List.map_cons]
      rw [ih]
      simp

/-- **C4**: TOC child entries whose lowercased title is a reserved label
(`about`, `functions`, `providers`, `provider`) produce no `CommandRecord`
and no page download; every other child entry produces exactly one
`CommandRecord` — and issues exactly one page download — whose path is the
command's file path taken relative to the staging root. -/
theorem download_module_contents_spec (mn mu md : String)
    (cmdlets : List TocEntry) (rd : String) :
    (∀ e ∈ cmdlets, pyLower e.toc_title ∈ special_toc →
      (∀ c ∈ (download_module_contents mn mu md cmdlets rd).infos.cmdlets,
        c.name ≠ e.toc_title)
      ∧ (∀ d ∈ (download_module_contents mn mu md cmdlets rd).cmdlet_downloads,
        d.1 ≠ e.toc_title))
    ∧ (download_module_contents mn mu md cmdlets rd).infos.cmdlets
        = (cmdlets.filter (fun e => decide (pyLower e.toc_title ∉ special_toc))).map
            (fun e => ⟨e.toc_title, relpath (pjoin md (e.toc_title ++ ".html")) rd⟩)
    ∧ (download_module_contents mn mu md cmdlets rd).cmdlet_downloads
        = (cmdlets.filter (fun e => decide (pyLower e.toc_title ∉ special_toc))).map
            (fun e => (e.toc_title, e.href, pjoin md (e.toc_title ++ ".html")))
    ∧ (download_module_contents mn mu md cmdlets rd).infos.name = mn
    ∧ (download_module_contents mn mu md cmdlets rd).index_download
        = (mu, pjoin md (mn ++ ".html")) := by
  have hchar := dmc_foldl_eq md rd cmdlets ([], [])
  have h2 : (download_module_contents mn mu md cmdlets rd).infos.cmdlets
      = (cmdlets.filter (fun e => decide (pyLower e.toc_title ∉ special_toc))).map
          (fun e => ⟨e.toc_title, relpath (pjoin md (e.toc_title ++ ".html")) rd⟩) := by
    unfold download_module_contents
    simp only []
    rw [hchar]
    simp
  have h3 : (download_module_contents mn mu md cmdlets rd).cmdlet_downloads
      = (cmdlets.filter (fun e => decide (pyLower e.toc_title ∉ special_toc))).map
          (fun e => (e.toc_title, e.href, pjoin md (e.toc_title ++ ".html"))) := by
    unfold download_module_contents
    simp only []
    rw [hchar]
    simp
  refine ⟨?_, h2, h3, rfl, rfl⟩
  intro e he hres
  constructor
  · intro c hc
    rw [h2] at hc
    obtain ⟨e', he', heq⟩ := List.mem_map.mp hc
    have hne : pyLower e'.toc_title ∉ special_toc := by
      simpa using (List.mem_filter.mp he').2
    intro hname
    have hti : e'.toc_title = c.name := congrArg CmdletRec.name heq
    exact hne ((hti.trans hname) ▸ hres)
  · intro d hd
    rw [h3] at hd
    obtain ⟨e', he', heq⟩ := List.mem_map.mp hd
    have hne : pyLower e'.toc_title ∉ special_toc := by
      simpa using (List.mem_filter.mp he').2
    intro hname
    have hti : e'.toc_title = d.1 := congrArg Prod.fst heq
    exact hne ((hti.trans hname) ▸ hres)

/-- **C4 witness**: for a module with children `About` (reserved) and
`Get-Item`, the produced command records and downloads cover exactly
`Get-Item`, with its path relative to the staging root. -/
theorem download_module_contents_spec_holds :
    (download_module_contents "M" "u" "r/d"
        [⟨"About", "h1"⟩, ⟨"Get-Item", "h2"⟩] "r").infos.cmdlets
      = [⟨"Get-Item", "d/Get-Item.html"⟩]
    ∧ (download_module_contents "M" "u" "r/d"
        [⟨"About", "h1"⟩, ⟨"Get-Item", "h2"⟩] "r").cmdlet_downloads
      = [("Get-Item", "h2", "r/d/Get-Item.html")]
    ∧ ("Get-Item" : String) ≠ "About" := by
  have h := download_module_contents_spec "M" "u" "r/d"
    [⟨"About", "h1"⟩, ⟨"Get-Item", "h2"⟩] "r"
  refine ⟨h.2.1.trans (by decide), h.2.2.1.trans (by decide), ?_⟩
  exact (h.1 ⟨"About", "h1"⟩ (by decide) (by decide)).1
    ⟨"Get-Item", "d/Get-Item.html"⟩ (by rw [h.2.1]; decide)

/-! ### Lemmas for C2: correctness of the embedded regex matcher -/

theorem takeWordRun_append_eq (s : List Char) :
    (takeWordRun s).1 ++ (takeWordRun s).2 = s := by
  induction s with
  | nil => rfl
  | cons c cs ih =>
    cases h : isWordChar c <;> simp [takeWordRun, h, ih]

theorem takeWordRun_words (s : List Char) :
    ∀ c ∈ (takeWordRun s).1, isWordChar c := by
  induction s with
  | nil => intro c hc; simp [takeWordRun] at hc
  | cons c cs ih =>
    intro x hx
    cases h : isWordChar c <;> simp [takeWordRun, h] at hx
    rcases hx with hx | hx
    · exact hx ▸ h
    · exact ih x hx

theorem takeWordRun_of_append (a b : List Char)
    (ha : ∀ c ∈ a, isWordChar c)
    (hb : ∀ c ∈ b.head?, isWordChar c = false) :
    takeWordRun (a ++ b) = (a, b) := by
  induction a with
  | nil =>
    cases b with
    | nil => rfl
    | cons c t =>
      have hc : isWordChar c = false := hb c rfl
      simp [takeWordRun, hc]
  | cons c as ih =>
    have hc : isWordChar c = true := ha c (List.mem_cons_self _ _)
    have ih' := ih (fun x hx => ha x (List.mem_cons_of_mem _ hx))
    simp [takeWordRun, hc, ih']

theorem matchVersionToken_sound (s t : List Char)
    (h : matchVersionToken s = some t) :
    ∃ a b rest, s = a ++ '-' :: (b ++ (qview ++ rest)) ∧ a ≠ [] ∧ b ≠ [] ∧
      (∀ c ∈ a, isWordChar c) ∧ (∀ c ∈ b, isWordChar c) := by
  unfold matchVersionToken at h
  by_cases h1 : (takeWordRun s).1 = []
  · simp [h1] at h
  · cases h2 : (takeWordRun s).2 with
    | nil => simp [h1, h2] at h
    | cons c rest2 =>
      by_cases hc : c = '-'
      · subst hc
        by_cases h3 : (takeWordRun rest2).1 = []
        · simp [h1, h2, h3] at h
        · by_cases h4 : qview.isPrefixOf (takeWordRun rest2).2
          · obtain ⟨rest, hrest⟩ :=
              List.isPrefixOf_iff_prefix.mp h4
            refine ⟨(takeWordRun s).1, (takeWordRun rest2).1, rest, ?_, h1, h3,
              takeWordRun_words s, takeWordRun_words rest2⟩
            calc s = (takeWordRun s).1 ++ (takeWordRun s).2 :=
                  (takeWordRun_append_eq s).symm
              _ = (takeWordRun s).1 ++ '-' :: rest2 := by rw [h2]
              _ = (takeWordRun s).1 ++ '-' ::
                    ((takeWordRun rest2).1 ++ (takeWordRun rest2).2) := by
                  rw [takeWordRun_append_eq]
              _ = (takeWordRun s).1 ++ '-' ::
                    ((takeWordRun rest2).1 ++ (qview ++ rest)) := by
                  rw [hrest]
          · simp [h1, h2, h3, h4] at h
      · simp [h1, h2, hc] at h

theorem matchVersionToken_complete (a b rest : List Char)
    (ha : a ≠ []) (hb : b ≠ [])
    (hwa : ∀ c ∈ a, isWordChar c) (hwb : ∀ c ∈ b, isWordChar c) :
    matchVersionToken (a ++ '-' :: (b ++ (qview ++ rest)))
      = some (a ++ '-' :: b) := by
  have hqhead : qview = '?' :: "view=powershell-".data := rfl
  have h1 : takeWordRun (a ++ '-' :: (b ++ (qview ++ rest)))
      = (a, '-' :: (b ++ (qview ++ rest))) := by
    refine takeWordRun_of_append a _ hwa ?_
    intro c hc
    have : c = '-' := by simpa using hc.symm
    subst this
    decide
  have h2 : takeWordRun (b ++ (qview ++ rest)) = (b, qview ++ rest) := by
    refine takeWordRun_of_append b _ hwb ?_
    intro c hc
    rw [hqhead] at hc
    have : c = '?' := by simpa using hc.symm
    subst this
    decide
  have hpre : qview.isPrefixOf (qview ++ rest) = true :=
    List.isPrefixOf_iff_prefix.mpr ⟨rest, rfl⟩
  simp [matchVersionToken, h1, h2, ha, hb, hpre]

theorem findVersionToken_isSome_of_suffix :
    ∀ (pre u : List Char), u ≠ [] → (matchVersionToken u).isSome →
      (findVersionToken (pre ++ u)).isSome := by
  intro pre
  induction pre with
  | nil =>
    intro u hu hm
    cases u with
    | nil => exact absurd rfl hu
    | cons c t =>
      rw [List.nil_append]
      cases h : matchVersionToken (c :: t) with
      | some tok => simp [findVersionToken, h]
      | none => rw [h] at hm; simp at hm
  | cons c pre ih =>
    intro u hu hm
    rw [List.cons_append]
    cases h : matchVersionToken (c :: (pre ++ u)) with
    | some tok => simp [findVersionToken, h]
    | none =>
      simp only [findVersionToken, h]
      exact ih u hu hm

theorem findVersionToken_sound :
    ∀ s, (findVersionToken s).isSome → HasVersionToken s := by
  intro s
  induction s with
  | nil => intro h; simp [findVersionToken] at h
  | cons c cs ih =>
    intro h
    cases hm : matchVersionToken (c :: cs) with
    | some t =>
      obtain ⟨a, b, rest, hs, ha, hb, hwa, hwb⟩ :=
        matchVersionToken_sound _ _ hm
      exact ⟨[], a, b, rest, by simpa using hs, ha, hb, hwa, hwb⟩
    | none =>
      simp only [findVersionToken, hm] at h
      obtain ⟨pre, a, b, rest, hs, ha, hb, hwa, hwb⟩ := ih h
      exact ⟨c :: pre, a, b, rest, by simp [hs], ha, hb, hwa, hwb⟩

/-- The embedded matcher agrees with the spec's description of when the
rewrite applies: a token is found iff the href contains a `word-word`
identifier immediately before the version query string. -/
theorem findVersionToken_isSome_iff (s : List Char) :
    (findVersionToken s).isSome ↔ HasVersionToken s := by
  constructor
  · exact findVersionToken_sound s
  · rintro ⟨pre, a, b, rest, hs, ha, hb, hwa, hwb⟩
    subst hs
    apply findVersionToken_isSome_of_suffix
    · cases a with
      | nil => exact absurd rfl ha
      | cons x xs => simp
    · rw [matchVersionToken_complete a b rest ha hb hwa hwb]
      rfl

/-- **C2**: for every anchor flagged as an internal relative-path link, the
sentinel href `./?view=powershell-<version>` is rewritten to
`./<anchor text>.html`; otherwise, when the href contains a `\w+-\w+` token
immediately before `?view=powershell-` the href becomes `<token>.html`
(leftmost token, as `re.findall(...)[0]` picks it), and otherwise the href
is left unchanged; in particular `./?view=powershell-6` with text `Get-Help`
becomes `./Get-Help.html` and `Get-Process?view=powershell-6` becomes
`Get-Process.html`. -/
theorem rewrite_soup_nav_link (version text href : String) :
    (href = "./?view=powershell-" ++ version →
      fix_nav_href version text href = "./" ++ text ++ ".html")
    ∧ (href ≠ "./?view=powershell-" ++ version →
        (∀ tok, findVersionToken href.data = some tok →
          fix_nav_href version text href = String.mk tok ++ ".html")
        ∧ (findVersionToken href.data = none →
          fix_nav_href version text href = href))
    ∧ ((findVersionToken href.data).isSome ↔ HasVersionToken href.data)
    ∧ fix_nav_href "6" "Get-Help" "./?view=powershell-6" = "./Get-Help.html"
    ∧ fix_nav_href "6" "Any-Text" "Get-Process?view=powershell-6"
        = "Get-Process.html" := by
  refine ⟨?_, ?_, findVersionToken_isSome_iff href.data, by decide, by decide⟩
  · intro h
    unfold fix_nav_href
    rw [if_pos h]
  · intro h
    constructor
    · intro tok htok
      unfold fix_nav_href
      rw [if_neg h, htok]
    · intro hnone
      unfold fix_nav_href
      rw [if_neg h, hnone]

/-- **C2 witness**: the sentinel rewrite and the leave-unchanged branch at
concrete hrefs. -/
theorem rewrite_soup_nav_link_holds :
    fix_nav_href "6" "Get-Help" "./?view=powershell-6" = "./Get-Help.html"
    ∧ fix_nav_href "6" "t" "no token here" = "no token here" := by
  constructor
  · exact (rewrite_soup_nav_link "6" "Get-Help" "./?view=powershell-6").1
      (by decide)
  · exact ((rewrite_soup_nav_link "6" "t" "no token here").2.1
      (by decide)).2 (by decide)

/-- **C3 counterexample**: the claim's example href
`/_themes/docs.theme/master/en-us/_themes/styles/main.css` does *not* yield
`https://docs.microsoft.com/_themes/...`: the code interpolates the stripped
href with its leading slash intact into `"https://%s/%s"`, producing a
double slash. -/
theorem theme_css_url_not_single_slash :
    theme_css_url "/_themes/docs.theme/master/en-us/_themes/styles/main.css"
      ≠ some "https://docs.microsoft.com/_themes/docs.theme/master/en-us/_themes/styles/main.css" := by
  decide

/-- **C3 amended**: for every stylesheet href matching the theme-path prefix
(after stripping whitespace and, for the test only, leading slashes), the
emitted ThemeResourceRecord URL is `https://docs.microsoft.com/` followed by
the *stripped href as-is* — the leading slash is not removed, so an href
beginning with `/` produces a double slash after the domain. -/
theorem theme_css_url_amended (href : String)
    (h : Configuration.default_theme_uri.data.isPrefixOf
      (pyLstripSlash (pyStrip href)).data) :
    theme_css_url href = some ("https://docs.microsoft.com/" ++ pyStrip href) := by
  unfold theme_css_url
  rw [if_pos h]
  rfl

/-- **C3 witness**: at the spec's example href the amended rule produces the
double-slash URL. -/
theorem theme_css_url_amended_holds :
    theme_css_url "/_themes/docs.theme/master/en-us/_themes/styles/main.css"
      = some "https://docs.microsoft.com//_themes/docs.theme/master/en-us/_themes/styles/main.css" := by
  have h := theme_css_url_amended
    "/_themes/docs.theme/master/en-us/_themes/styles/main.css" (by decide)
  exact h.trans (by decide)

/-! ### Lemmas for C9: `make_docset` and the packaging step -/

theorem take_while_append_stop {α : Type} (p : α → Bool) :
    ∀ (l1 l2 : List α), (∀ c ∈ l1, p c) → (∀ c ∈ l2.head?, p c = false) →
      (l1 ++ l2).takeWhile p = l1 := by
  intro l1
  induction l1 with
  | nil =>
    intro l2 _ h2
    cases l2 with
    | nil => rfl
    | cons c t => simp [List.takeWhile_cons, h2 c rfl]
  | cons c t ih =>
    intro l2 h1 h2
    have hc : p c = true := h1 c (List.mem_cons_self _ _)
    simp [List.takeWhile_cons, hc, ih l2 (fun x hx => h1 x (List.mem_cons_of_mem _ hx)) h2]

theorem pjoin_rel (a b : String) (hb : b.data.head? ≠ some '/')
    (ha : a.data ≠ []) (ha2 : a.data.getLast? ≠ some '/') :
    pjoin a b = (a ++ "/") ++ b := by
  unfold pjoin
  rw [if_neg hb, if_neg ha, if_neg ha2]

theorem string_append_assoc (a b c : String) : (a ++ b) ++ c = a ++ (b ++ c) := by
  apply String.ext
  simp [String.data_append, List.append_assoc]

theorem data_append_slash (a b : String) :
    ((a ++ "/") ++ b).data = a.data ++ ('/' :: b.data) := by
  simp [String.data_append]

theorem basename_pjoin (a s : String) (hs1 : s.data ≠ [])
    (hs2 : ∀ c ∈ s.data, c ≠ '/') : basename (pjoin a s) = s := by
  have hword : ∀ c ∈ s.data.reverse, (c != '/') = true := by
    intro c hc
    simpa [bne_iff_ne] using hs2 c (List.mem_reverse.mp hc)
  have hbase_self : basename s = s := by
    unfold basename
    rw [show s.data.reverse = s.data.reverse ++ [] from (List.append_nil _).symm,
      take_while_append_stop _ _ [] hword (by intro c hc; simp at hc)]
    simp only [List.append_nil, List.reverse_reverse]
  have hhead : ¬ s.data.head? = some '/' := by
    intro hsome
    cases hd : s.data with
    | nil => exact hs1 hd
    | cons c t =>
      rw [hd] at hsome
      exact hs2 c (by simp [hd]) (Option.some.inj hsome)
  unfold pjoin
  rw [if_neg hhead]
  by_cases hanil : a.data = []
  · rw [if_pos hanil]
    exact hbase_self
  · rw [if_neg hanil]
    by_cases haslash : a.data.getLast? = some '/'
    · rw [if_pos haslash]
      unfold basename
      rw [String.data_append, List.reverse_append,
        take_while_append_stop _ _ _ hword
          (by
            intro c hc
            rw [List.head?_reverse, haslash] at hc
            have hc' : c = '/' := by simpa using hc.symm
            subst hc'
            decide)]
      simp only [List.reverse_reverse]
    · rw [if_neg haslash]
      unfold basename
      rw [data_append_slash, List.reverse_append, List.reverse_cons,
        List.append_assoc, List.singleton_append,
        take_while_append_stop _ _ _ hword
          (by
            intro c hc
            have hc' : c = '/' := by simpa using hc.symm
            subst hc'
            decide)]
      simp only [List.reverse_reverse]

/-- **C9**: `make_docset` produces a gzip-compressed archive whose internal
top-level directory is `basename source_dir` — independent of the archive's
own file name — first written to `<dst>/<name>.tar`, then renamed twice
(`.tar` → `.tar.gz` → `.docset`); the packaging step of `main` therefore
leaves a single archive at `<output>/versions/<version>/Powershell.docset`
whose internal root directory is `Powershell.docset`. -/
theorem make_docset_packaging (source_dir dst_dir filename out ver bld : String)
    (hout1 : out.data ≠ []) (hout2 : out.data.getLast? ≠ some '/')
    (hver1 : ver.data ≠ []) (hver2 : ver.data.head? ≠ some '/')
    (hver3 : ver.data.getLast? ≠ some '/') :
    ((make_docset source_dir dst_dir filename).1.rootName = basename source_dir)
    ∧ ((make_docset source_dir dst_dir filename).1.gzipped = true)
    ∧ ((make_docset source_dir dst_dir filename).1.path
        = pjoin dst_dir (filename ++ ".docset"))
    ∧ ((make_docset source_dir dst_dir filename).2
        = [(pjoin dst_dir (filename ++ ".tar"), pjoin dst_dir (filename ++ ".tar.gz")),
           (pjoin dst_dir (filename ++ ".tar.gz"), pjoin dst_dir (filename ++ ".docset"))])
    ∧ ((main_package out ver bld).1.rootName = "Powershell.docset")
    ∧ ((main_package out ver bld).1.path
        = out ++ "/versions/" ++ ver ++ "/Powershell.docset") := by
  refine ⟨by simp [make_docset, moveFile], by simp [make_docset, moveFile],
    by simp [make_docset, moveFile], by simp [make_docset, moveFile], ?_, ?_⟩
  · have hroot : (main_package out ver bld).1.rootName
        = basename (pjoin (pjoin bld "_4_ready_to_be_packaged")
            (Configuration.docset_name ++ ".docset")) := by
      simp [main_package, make_docset, moveFile]
    rw [hroot]
    exact basename_pjoin _ _ (by decide) (by decide)
  · show (make_docset _ (pjoin (pjoin out "versions") ver) Configuration.docset_name).1.path
      = out ++ "/versions/" ++ ver ++ "/Powershell.docset"
    have e1 : pjoin out "versions" = (out ++ "/") ++ "versions" :=
      pjoin_rel out "versions" (by decide) hout1 hout2
    have d1 : ((out ++ "/") ++ "versions").data
        = out.data ++ ('/' :: "versions".data) := data_append_slash out "versions"
    have ne1 : ((out ++ "/") ++ "versions").data ≠ [] := by
      rw [d1]; simp
    have gl1 : ((out ++ "/") ++ "versions").data.getLast? ≠ some '/' := by
      rw [d1, List.getLast?_append_of_ne_nil _ (by simp)]
      decide
    have e2 : pjoin ((out ++ "/") ++ "versions") ver
        = ((((out ++ "/") ++ "versions") ++ "/") ++ ver) :=
      pjoin_rel _ ver hver2 ne1 gl1
    have d2 : ((((out ++ "/") ++ "versions") ++ "/") ++ ver).data
        = ((out ++ "/") ++ "versions").data ++ ('/' :: ver.data) :=
      data_append_slash _ ver
    have ne2 : ((((out ++ "/") ++ "versions") ++ "/") ++ ver).data ≠ [] := by
      rw [d2]; simp
    have gl2 : ((((out ++ "/") ++ "versions") ++ "/") ++ ver).data.getLast? ≠ some '/' := by
      rw [d2, List.getLast?_append_of_ne_nil _ (by simp)]
      cases hv : ver.data with
      | nil => exact absurd hv hver1
      | cons c t =>
        rw [List.getLast?_cons_cons]
        rw [hv] at hver3
        exact hver3
    have e3 : pjoin ((((out ++ "/") ++ "versions") ++ "/") ++ ver)
          (Configuration.docset_name ++ ".docset")
        = (((((out ++ "/") ++ "versions") ++ "/") ++ ver) ++ "/")
            ++ (Configuration.docset_name ++ ".docset") :=
      pjoin_rel _ _ (by decide) ne2 gl2
    have hpath : (make_docset ((pjoin (pjoin bld "_4_ready_to_be_packaged")
          (Configuration.docset_name ++ ".docset")))
          (pjoin (pjoin out "versions") ver) Configuration.docset_name).1.path
        = pjoin (pjoin (pjoin out "versions") ver)
            (Configuration.docset_name ++ ".docset") := by
      simp [make_docset, moveFile]
    rw [hpath, e1, e2, e3]
    apply String.ext
    simp only [Configuration.docset_name, String.data_append, List.append_assoc,
      List.cons_append, List.nil_append]

/-- **C9 witness**: with output directory `out`, version `6` and build
directory `b`, the archive lands at `out/versions/6/Powershell.docset` and
its internal root directory is `Powershell.docset`. -/
theorem make_docset_packaging_holds :
    (main_package "out" "6" "b").1.path = "out/versions/6/Powershell.docset"
    ∧ (main_package "out" "6" "b").1.rootName = "Powershell.docset" := by
  have h := make_docset_packaging "s" "d" "f" "out" "6" "b"
    (by decide) (by decide) (by decide) (by decide) (by decide)
  exact ⟨h.2.2.2.2.2.trans (by decide), h.2.2.2.2.1⟩

end PoshToDash
